import Mathlib

set_option maxHeartbeats 1000000

/- Verification development for the batch-learn training driver
   (src/commands/model.cpp).

   Modelling conventions:
   * C++ float/double arithmetic is modelled over ℝ (exact real semantics).
   * Machine integers are modelled as ℕ; wrap-around is made explicit with
     reductions mod 2^32 / 2^64 exactly where the C++ type forces it.
   * The external reader (batch_learn::file_index / read_batch) and the
     opaque model are interface boundaries: an example's feature slice is
     abstracted to its list of feature values, and the model to a record of
     its four capabilities.
   * std::shuffle on the process-wide engine is modelled as an arbitrary
     function parameter; theorems assume only that it permutes its input.
   * The OpenMP parallel-for with + reductions over loss/cnt is modelled as
     a fold over the batch list; the reductions are plain sums, which are
     order-independent, and worker partitions are modelled explicitly where
     a claim quantifies over them. -/

-- Batch configuration (model.cpp lines 15-16)
def batch_size : ℕ := 20000
def mini_batch_size : ℕ := 24

-- Dropout configuration (model.cpp line 19), in 64-bit words
def dropout_mask_max_size : ℕ := 4000

/-- Fuel-indexed chunking loop shared by `generate_batches` (lines 49-50) and
`generate_mini_batches` (lines 63-64): starting from `start`, emit the range
`(start, min (start + cap) stop)` and advance by `cap` while `start < stop`.
Fuel `stop - start` is sufficient because each iteration advances `start` by
`cap ≥ 1` for the two capacities used (20000 and 24). -/
def chunksGo (cap : ℕ) : ℕ → ℕ → ℕ → List (ℕ × ℕ)
  | 0, _, _ => []
  | fuel + 1, start, stop =>
    if start < stop then
      (start, min (start + cap) stop) :: chunksGo cap fuel (start + cap) stop
    else []

/-- The chunking loop run with adequate fuel. -/
def chunkRanges (cap start stop : ℕ) : List (ℕ × ℕ) :=
  chunksGo cap (stop - start) start stop

/-- Embeds `batch_learn_dataset::generate_batches` (lines 46-56): build the
batch ranges over `[0, n_examples)` and, if `shuffle` is set, permute them
with the shared random engine (modelled by the parameter `rndShuffle`). -/
def generate_batches (n_examples : ℕ) (shuffle : Bool)
    (rndShuffle : List (ℕ × ℕ) → List (ℕ × ℕ)) : List (ℕ × ℕ) :=
  let batches := chunkRanges batch_size 0 n_examples
  if shuffle then rndShuffle batches else batches

/-- Embeds `generate_mini_batches` (lines 60-67): partition `[b, e)` into
mini-batch ranges of capacity 24, in ascending order (no shuffle here). -/
def generate_mini_batches (b e : ℕ) : List (ℕ × ℕ) :=
  chunkRanges mini_batch_size b e

theorem chunksGo_mem (cap : ℕ) (hcap : 0 < cap) :
    ∀ (fuel s t : ℕ), ∀ r ∈ chunksGo cap fuel s t,
    s ≤ r.1 ∧ r.1 < r.2 ∧ r.2 ≤ t ∧ r.2 - r.1 ≤ cap := by
  intro fuel
  induction fuel with
  | zero => intro s t r hr; simp [chunksGo] at hr
  | succ f ih =>
    intro s t r hr
    simp only [chunksGo] at hr
    by_cases h : s < t
    · rw [if_pos h] at hr
      rcases List.mem_cons.mp hr with h1 | h2
      · subst h1
        refine ⟨le_refl s, ?_, ?_, ?_⟩
        · show s < min (s + cap) t
          omega
        · show min (s + cap) t ≤ t
          omega
        · show min (s + cap) t - s ≤ cap
          omega
      · have := ih (s + cap) t r h2
        omega
    · rw [if_neg h] at hr
      simp at hr

theorem chunksGo_cover (cap : ℕ) (hcap : 0 < cap) :
    ∀ (fuel s t : ℕ), t - s ≤ fuel → ∀ i, s ≤ i → i < t →
    ∃ r ∈ chunksGo cap fuel s t, r.1 ≤ i ∧ i < r.2 := by
  intro fuel
  induction fuel with
  | zero => intro s t hf i h1 h2; omega
  | succ f ih =>
    intro s t hf i h1 h2
    have hst : s < t := by omega
    simp only [chunksGo, if_pos hst]
    by_cases hi : i < min (s + cap) t
    · exact ⟨(s, min (s + cap) t), List.mem_cons_self _ _, h1, hi⟩
    · have hi2 : s + cap ≤ i := by omega
      obtain ⟨r, hr, h3, h4⟩ := ih (s + cap) t (by omega) i hi2 h2
      exact ⟨r, List.mem_cons_of_mem _ hr, h3, h4⟩

theorem chunksGo_head (cap fuel s t : ℕ) :
    ∀ r ∈ (chunksGo cap fuel s t).head?, r.1 = s := by
  cases fuel with
  | zero => simp [chunksGo]
  | succ f => by_cases h : s < t <;> simp [chunksGo, h]

theorem chunksGo_ne_nil (cap fuel s t : ℕ) (h : chunksGo cap fuel s t ≠ []) :
    s < t := by
  cases fuel with
  | zero => simp [chunksGo] at h
  | succ f =>
    by_cases hst : s < t
    · exact hst
    · simp [chunksGo, hst] at h

theorem chunksGo_chain (cap : ℕ) : ∀ (fuel s t : ℕ),
    List.Chain' (fun a b : ℕ × ℕ => a.2 = b.1) (chunksGo cap fuel s t) := by
  intro fuel
  induction fuel with
  | zero => intro s t; simp [chunksGo]
  | succ f ih =>
    intro s t
    by_cases h : s < t
    · simp only [chunksGo, if_pos h]
      apply List.Chain'.cons'
      · exact ih (s + cap) t
      · intro y hy
        have hne : chunksGo cap f (s + cap) t ≠ [] := by
          intro hnil; rw [hnil] at hy; simp at hy
        have h1 : s + cap < t := chunksGo_ne_nil cap f (s + cap) t hne
        have h2 : y.1 = s + cap := chunksGo_head cap f (s + cap) t y hy
        show min (s + cap) t = y.1
        omega
    · simp [chunksGo, h]

theorem chunksGo_pairwise (cap : ℕ) (hcap : 0 < cap) : ∀ (fuel s t : ℕ),
    List.Pairwise (fun a b : ℕ × ℕ => a.2 ≤ b.1) (chunksGo cap fuel s t) := by
  intro fuel
  induction fuel with
  | zero => intro s t; simp [chunksGo]
  | succ f ih =>
    intro s t
    by_cases h : s < t
    · simp only [chunksGo, if_pos h]
      refine List.Pairwise.cons ?_ (ih (s + cap) t)
      intro r hr
      have := chunksGo_mem cap hcap f (s + cap) t r hr
      show min (s + cap) t ≤ r.1
      omega
    · simp [chunksGo, h]

theorem chunksGo_dropLast (cap : ℕ) : ∀ (fuel s t : ℕ),
    ∀ r ∈ (chunksGo cap fuel s t).dropLast, r.2 - r.1 = cap := by
  intro fuel
  induction fuel with
  | zero => intro s t; simp [chunksGo]
  | succ f ih =>
    intro s t r hr
    by_cases h : s < t
    · simp only [chunksGo, if_pos h] at hr
      rcases hn : chunksGo cap f (s + cap) t with _ | ⟨x, xs⟩
      · rw [hn] at hr; simp at hr
      · rw [hn] at hr
        rw [List.dropLast_cons₂] at hr
        rcases List.mem_cons.mp hr with h1 | h2
        · have h3 : s + cap < t :=
            chunksGo_ne_nil cap f (s + cap) t (by rw [hn]; simp)
          subst h1
          show min (s + cap) t - s = cap
          omega
        · exact ih (s + cap) t r (by rw [hn]; exact h2)
    · simp [chunksGo, h] at hr

theorem chunksGo_sum (cap : ℕ) (hcap : 0 < cap) : ∀ (fuel s t : ℕ), t - s ≤ fuel →
    ((chunksGo cap fuel s t).map (fun r => r.2 - r.1)).sum = t - s := by
  intro fuel
  induction fuel with
  | zero => intro s t hf; simp [chunksGo]; omega
  | succ f ih =>
    intro s t hf
    by_cases h : s < t
    · simp only [chunksGo, if_pos h, List.map_cons, List.sum_cons]
      rw [ih (s + cap) t (by omega)]
      show min (s + cap) t - s + (t - (s + cap)) = t - s
      omega
    · simp only [chunksGo, if_neg h, List.map_nil, List.sum_nil]
      omega

theorem chunkRanges_mem (cap s t : ℕ) (hcap : 0 < cap) : ∀ r ∈ chunkRanges cap s t,
    s ≤ r.1 ∧ r.1 < r.2 ∧ r.2 ≤ t ∧ r.2 - r.1 ≤ cap :=
  chunksGo_mem cap hcap (t - s) s t

theorem chunkRanges_cover (cap s t : ℕ) (hcap : 0 < cap) :
    ∀ i, s ≤ i → i < t → ∃ r ∈ chunkRanges cap s t, r.1 ≤ i ∧ i < r.2 :=
  chunksGo_cover cap hcap (t - s) s t le_rfl

theorem chunkRanges_chain (cap s t : ℕ) :
    List.Chain' (fun a b : ℕ × ℕ => a.2 = b.1) (chunkRanges cap s t) :=
  chunksGo_chain cap (t - s) s t

theorem chunkRanges_pairwise (cap s t : ℕ) (hcap : 0 < cap) :
    List.Pairwise (fun a b : ℕ × ℕ => a.2 ≤ b.1) (chunkRanges cap s t) :=
  chunksGo_pairwise cap hcap (t - s) s t

theorem chunkRanges_dropLast (cap s t : ℕ) :
    ∀ r ∈ (chunkRanges cap s t).dropLast, r.2 - r.1 = cap :=
  chunksGo_dropLast cap (t - s) s t

theorem chunkRanges_sum (cap s t : ℕ) (hcap : 0 < cap) :
    ((chunkRanges cap s t).map (fun r => r.2 - r.1)).sum = t - s :=
  chunksGo_sum cap hcap (t - s) s t le_rfl

/-- One hardware entropy source: `rdrand c` is the value produced by the
`c`-th `_rdrand64_step` executed (a 64-bit word, modelled as ℕ), or `none`
when the instruction fails to produce a value. -/
def RdRand : Type := ℕ → Option ℕ

/-- Embeds the inner loop of `fill_mask_rand` (lines 74-80): starting from the
accumulated word `acc`, perform `i` further draws beginning at draw counter
`c`, OR-ing each drawn value into the word; a failed draw raises the error
at line 77 immediately, with no retry. -/
def rdrand_or (rdrand : RdRand) : ℕ → ℕ → ℕ → Except String ℕ
  | acc, 0, _ => Except.ok acc
  | acc, i + 1, c =>
    match rdrand c with
    | none => Except.error ("Error generating random number!")
    | some v => rdrand_or rdrand (Nat.lor acc v) i (c + 1)

/-- Embeds the outer loop of `fill_mask_rand` (lines 73-81): fill `p` words,
each from `zero_prob_log` draws, consuming the draw counter from `c` on.
Each word starts from 0, which is the `memset` clearing at line 71. -/
def fill_words_rand (rdrand : RdRand) (zero_prob_log : ℕ) :
    ℕ → ℕ → Except String (List ℕ)
  | 0, _ => Except.ok []
  | p + 1, c =>
    match rdrand_or rdrand 0 zero_prob_log c with
    | Except.error e => Except.error e
    | Except.ok w =>
      match fill_words_rand rdrand zero_prob_log p (c + zero_prob_log) with
      | Except.error e => Except.error e
      | Except.ok ws => Except.ok (w :: ws)

/-- Embeds `fill_mask_rand` (lines 70-82): the mask buffer is a list of
64-bit words; the first `size` words are cleared and refilled from the
entropy source, the rest of the buffer is untouched. -/
def fill_mask_rand (mask : List ℕ) (size zero_prob_log : ℕ)
    (rdrand : RdRand) : Except String (List ℕ) :=
  match fill_words_rand rdrand zero_prob_log size 0 with
  | Except.error e => Except.error e
  | Except.ok ws => Except.ok (ws ++ mask.drop size)

/-- Embeds `fill_mask_ones` (lines 84-86): `memset(mask, 0xFF, size * 8)`
sets the first `size` words to all-ones (2^64 - 1 as a 64-bit word). -/
def fill_mask_ones (size : ℕ) : List ℕ :=
  List.replicate size (2 ^ 64 - 1)

/-- The value a mask word takes after `i` successful draws starting at draw
counter `c`, OR-ed onto `acc` (mirrors `rdrand_or` on the success path). -/
def word_val_go (rdrand : RdRand) : ℕ → ℕ → ℕ → ℕ
  | acc, 0, _ => acc
  | acc, i + 1, c => word_val_go rdrand (Nat.lor acc ((rdrand c).getD 0)) i (c + 1)

theorem rdrand_or_ok (rdrand : RdRand) : ∀ (k c acc : ℕ),
    (∀ i, i < k → (rdrand (c + i)).isSome) →
    rdrand_or rdrand acc k c = Except.ok (word_val_go rdrand acc k c) := by
  intro k
  induction k with
  | zero => intro c acc h; rfl
  | succ k ih =>
    intro c acc h
    have h0 : (rdrand c).isSome := by
      have := h 0 (Nat.succ_pos k)
      simpa using this
    obtain ⟨v, hv⟩ := Option.isSome_iff_exists.mp h0
    simp only [rdrand_or, word_val_go, hv]
    have := ih (c + 1) (Nat.lor acc v) (fun i hi => by
      have := h (i + 1) (by omega)
      simpa [Nat.add_assoc, Nat.add_comm 1 i] using this)
    rw [this]
    rfl

theorem rdrand_or_err (rdrand : RdRand) : ∀ (k c acc j : ℕ), j < k →
    (∀ i, i < j → (rdrand (c + i)).isSome) → rdrand (c + j) = none →
    rdrand_or rdrand acc k c = Except.error ("Error generating random number!") := by
  intro k
  induction k with
  | zero => intro c acc j hj; omega
  | succ k ih =>
    intro c acc j hj hpre hnone
    cases j with
    | zero =>
      have : rdrand c = none := by simpa using hnone
      simp [rdrand_or, this]
    | succ j =>
      have h0 : (rdrand c).isSome := by
        have := hpre 0 (Nat.succ_pos j)
        simpa using this
      obtain ⟨v, hv⟩ := Option.isSome_iff_exists.mp h0
      simp only [rdrand_or, hv]
      exact ih (c + 1) (Nat.lor acc v) j (by omega)
        (fun i hi => by
          have := hpre (i + 1) (by omega)
          simpa [Nat.add_assoc, Nat.add_comm 1 i] using this)
        (by
          have : c + (j + 1) = c + 1 + j := by omega
          rw [this] at hnone
          exact hnone)

theorem fill_words_rand_ok (rdrand : RdRand) (k : ℕ) : ∀ (p c : ℕ),
    (∀ j, j < p * k → (rdrand (c + j)).isSome) →
    fill_words_rand rdrand k p c
      = Except.ok ((List.range p).map (fun q => word_val_go rdrand 0 k (c + q * k))) := by
  intro p
  induction p with
  | zero => intro c h; rfl
  | succ p ih =>
    intro c h
    have hword : rdrand_or rdrand 0 k c = Except.ok (word_val_go rdrand 0 k c) := by
      apply rdrand_or_ok
      intro i hi
      exact h i (by calc i < k := hi
                       _ ≤ (p + 1) * k := Nat.le_mul_of_pos_left k (Nat.succ_pos p))
    have hrest := ih (c + k) (fun j hj => by
      have := h (k + j) (by
        have : (p + 1) * k = p * k + k := by ring
        omega)
      simpa [Nat.add_assoc] using this)
    simp only [fill_words_rand, hword, hrest]
    congr 1
    rw [List.range_succ_eq_map]
    simp only [List.map_cons, List.map_map]
    congr 1
    · show word_val_go rdrand 0 k c = word_val_go rdrand 0 k (c + 0 * k)
      norm_num
    · apply List.map_congr_left
      intro q _
      show word_val_go rdrand 0 k (c + k + q * k) = word_val_go rdrand 0 k (c + (q + 1) * k)
      congr 1
      ring

theorem fill_words_rand_err (rdrand : RdRand) (k : ℕ) : ∀ (p c j : ℕ),
    j < p * k → (∀ i, i < j → (rdrand (c + i)).isSome) → rdrand (c + j) = none →
    fill_words_rand rdrand k p c = Except.error ("Error generating random number!") := by
  intro p
  induction p with
  | zero => intro c j hj; omega
  | succ p ih =>
    intro c j hj hpre hnone
    by_cases hjk : j < k
    · have := rdrand_or_err rdrand k c 0 j hjk hpre hnone
      simp [fill_words_rand, this]
    · have hword : rdrand_or rdrand 0 k c = Except.ok (word_val_go rdrand 0 k c) := by
        apply rdrand_or_ok
        intro i hi
        exact hpre i (by omega)
      have hrest := ih (c + k) (j - k) (by
          have : (p + 1) * k = p * k + k := by ring
          omega)
        (fun i hi => by
          have := hpre (k + i) (by omega)
          simpa [Nat.add_assoc] using this)
        (by
          have : c + k + (j - k) = c + j := by omega
          rw [this]
          exact hnone)
      simp [fill_words_rand, hword, hrest]

/-- The dataset index bound by `batch_learn_dataset` (lines 31-44). The
external reader is an interface boundary: per-example byte offsets and the
raw feature records of `read_batch` are abstracted to `features ei`, the
list of feature values of example `ei`; `labels ei` is `index.labels[ei]`. -/
structure file_index where
  n_examples : ℕ
  labels : ℕ → ℝ
  features : ℕ → List ℝ
  n_index_bits : ℕ

/-- The external model's capability contract consumed by the runner
(`model.hpp` boundary): mask-size query, `predict` and `update`, over an
opaque weight state of type `α`. `predict st fs norm mask mult` is the score;
`update st fs norm scale mask mult` is the post-step state. -/
structure model (α : Type) where
  get_dropout_mask_size : List ℝ → ℕ
  predict : α → List ℝ → ℝ → List ℕ → ℝ → ℝ
  update : α → List ℝ → ℝ → ℝ → List ℕ → ℝ → α

/-- Embeds `compute_norm` (lines 88-95): sum of squared feature values. -/
noncomputable def compute_norm (fs : List ℝ) : ℝ :=
  fs.foldl (fun norm v => norm + v * v) 0

/-- Embeds line 99: `(1 << dropout_prob_log) / ((1 << dropout_prob_log) - 1.0f)`. -/
noncomputable def train_dropout_mult (dropout_prob_log : ℕ) : ℝ :=
  ((1 <<< dropout_prob_log : ℕ) : ℝ) / (((1 <<< dropout_prob_log : ℕ) : ℝ) - 1)

/-- Embeds the word count passed to `fill_mask_rand` at line 138:
`(dropout_mask_size + 63) / 64`. -/
def train_mask_words (dropout_mask_size : ℕ) : ℕ :=
  (dropout_mask_size + 63) / 64

/-- What `train_on_dataset` does to the mask buffer for one example:
either abort before writing, or fill `words` mask words. -/
inductive mask_fill_action where
  | abort
  | fill (words : ℕ)
deriving DecidableEq

/-- Embeds the mask-handling control flow at lines 136-138: the word count
is computed from the model's reported mask size and `fill_mask_rand` is
called unconditionally; the source contains no comparison against
`dropout_mask_max_size` and no abort path. -/
def train_mask_fill (dropout_mask_size : ℕ) : mask_fill_action :=
  mask_fill_action.fill (train_mask_words dropout_mask_size)

/-- Embeds the per-example training body (lines 130-147): read the label,
compute the norm, `predict`, take the logistic gradient step via `update`,
and return the new model state together with the example's loss
contribution `log(1 + exp(-y*t))`. `maskFor ei` stands for the per-example
dropout mask produced by `fill_mask_rand` (its hardware-random content is
an oracle here; `fill_mask_rand` itself is embedded above). -/
noncomputable def train_example_step {α : Type} (m : model α) (dmult : ℝ)
    (maskFor : ℕ → List ℕ) (idx : file_index) (st : α) (ei : ℕ) : α × ℝ :=
  let y := idx.labels ei
  let fs := idx.features ei
  let mask := maskFor ei
  let norm := compute_norm fs
  let t := m.predict st fs norm mask dmult
  let expnyt := Real.exp (-(y * t))
  let st2 := m.update st fs norm (-y * expnyt / (1 + expnyt)) mask dmult
  (st2, Real.log (1 + Real.exp (-(y * t))))

/-- Embeds the example loop over one mini-batch range (line 130): fold the
per-example step over `[mb.1, mb.2)`, threading model state and loss. -/
noncomputable def train_range {α : Type} (m : model α) (dmult : ℝ)
    (maskFor : ℕ → List ℕ) (idx : file_index) (p : α × ℝ) (mb : ℕ × ℕ) : α × ℝ :=
  (List.range' mb.1 (mb.2 - mb.1)).foldl (fun q ei =>
    let r := train_example_step m dmult maskFor idx q.1 ei
    (r.1, q.2 + r.2)) p

/-- Embeds one batch iteration of `train_on_dataset` (lines 113-151):
generate the mini-batches of the batch range, shuffle them (`mbShuffle b`
models the `std::shuffle` at line 127 for batch `b`), run the example loop
over each, and add the batch's example count to `cnt`. -/
noncomputable def train_batch {α : Type} (m : model α) (dmult : ℝ)
    (maskFor : ℕ → List ℕ) (idx : file_index)
    (mbShuffle : ℕ × ℕ → List (ℕ × ℕ) → List (ℕ × ℕ))
    (p : α × ℝ × ℕ) (b : ℕ × ℕ) : α × ℝ × ℕ :=
  let mbs := mbShuffle b (generate_mini_batches b.1 b.2)
  let q := mbs.foldl (train_range m dmult maskFor idx) (p.1, p.2.1)
  (q.1, q.2, p.2.2 + (b.2 - b.1))

/-- Embeds `train_on_dataset` (lines 98-157): compute the dropout
multiplier, generate shuffled batches, and run the batch loop, returning
(final model state, total loss, total example count). The OpenMP
parallel-for with `+` reductions over `loss`/`cnt` is modelled as a fold
over the shuffled batch list: the two reductions are plain sums and hence
independent of the nondeterministic processing order; the Hogwild races on
the shared model state (spec sect. 5) are outside the embedding. -/
noncomputable def train_on_dataset {α : Type} (m : model α) (idx : file_index)
    (dropout_prob_log : ℕ)
    (batchShuffle : List (ℕ × ℕ) → List (ℕ × ℕ))
    (mbShuffle : ℕ × ℕ → List (ℕ × ℕ) → List (ℕ × ℕ))
    (maskFor : ℕ → List ℕ) (st : α) : α × ℝ × ℕ :=
  let dmult := train_dropout_mult dropout_prob_log
  let batches := generate_batches idx.n_examples true batchShuffle
  batches.foldl (train_batch m dmult maskFor idx mbShuffle) (st, 0, 0)

/-- The mean loss printed at line 154: `loss / cnt`, with `cnt` held in a
`uint64_t`. -/
noncomputable def train_reported_mean_loss {α : Type} (r : α × ℝ × ℕ) : ℝ :=
  r.2.1 / ((r.2.2 % 2 ^ 64 : ℕ) : ℝ)

/-- The value stored into `predictions[ei]` at line 198 of
`evaluate_on_dataset`: `1 / (1 + exp(-t))` with `t` the score predicted
under the shared all-ones mask and dropout multiplier 1. -/
noncomputable def eval_prediction {α : Type} (m : model α) (st : α)
    (idx : file_index) (ei : ℕ) : ℝ :=
  1 / (1 + Real.exp (-(m.predict st (idx.features ei)
    (compute_norm (idx.features ei)) (fill_mask_ones dropout_mask_max_size) 1)))

/-- Embeds the per-example body of `evaluate_on_dataset` (lines 188-199):
accumulate the loss and scatter the predicted probability into the output
slot of the example's original ordinal. No `update` call occurs. -/
noncomputable def evaluate_example {α : Type} (m : model α) (st : α)
    (idx : file_index) (p : ℝ × (ℕ → ℝ)) (ei : ℕ) : ℝ × (ℕ → ℝ) :=
  let y := idx.labels ei
  let fs := idx.features ei
  let norm := compute_norm fs
  let t := m.predict st fs norm (fill_mask_ones dropout_mask_max_size) 1
  (p.1 + Real.log (1 + Real.exp (-(y * t))),
   Function.update p.2 ei (1 / (1 + Real.exp (-t))))

/-- Embeds one batch iteration of `evaluate_on_dataset` (lines 178-202):
iterate the examples of the batch range directly (no mini-batches), then
add the batch's example count. -/
noncomputable def evaluate_batch {α : Type} (m : model α) (st : α)
    (idx : file_index) (p : ℝ × ℕ × (ℕ → ℝ)) (b : ℕ × ℕ) : ℝ × ℕ × (ℕ → ℝ) :=
  let q := (List.range' b.1 (b.2 - b.1)).foldl (evaluate_example m st idx) (p.1, p.2.2)
  (q.1, p.2.1 + (b.2 - b.1), q.2)

/-- Embeds `evaluate_on_dataset` (lines 160-207): unshuffled batches, a
single shared all-ones mask of the full capacity (lines 168-169), no model
mutation, and a predictions buffer indexed by original example ordinal
(initially value-initialized to 0), returning (loss, cnt, predictions). -/
noncomputable def evaluate_on_dataset {α : Type} (m : model α)
    (idx : file_index) (st : α) : ℝ × ℕ × (ℕ → ℝ) :=
  let batches := generate_batches idx.n_examples false (fun l => l)
  batches.foldl (evaluate_batch m st idx) (0, 0, fun _ => 0)

/-- Example count accumulated by one worker over the batches it claimed:
each batch contributes `batch_end_index - batch_start_index`
(line 151 / line 201). -/
def worker_cnt (w : List (ℕ × ℕ)) : ℕ :=
  (w.map (fun b => b.2 - b.1)).sum

/-- The `cnt` reported by `train_on_dataset` (line 154) under an OpenMP
partition of the batches among workers: per-worker partial counts are
summed by the `reduction(+: cnt)`; `cnt` is a `uint64_t` (line 109). -/
def train_reported_cnt (workers : List (List (ℕ × ℕ))) : ℕ :=
  ((workers.map worker_cnt).sum) % 2 ^ 64

/-- The `cnt` reported by `evaluate_on_dataset` (line 204) under an OpenMP
partition of the batches among workers: same reduction, but `cnt` is a
`uint32_t` (line 172), so the total wraps mod 2^32. -/
def eval_reported_cnt (workers : List (List (ℕ × ℕ))) : ℕ :=
  ((workers.map worker_cnt).sum) % 2 ^ 32

/-- Observable steps of `model_command::run` (lines 250-294): a call to
`train_on_dataset` with its `dropout_prob_log` argument, a call to
`evaluate_on_dataset`, the creation of the prediction output file
(line 289), and the prediction pass (line 290). -/
inductive run_event where
  | train_epoch (dropout_prob_log : ℕ)
  | eval_pass
  | pred_file_created
  | predict_pass
deriving DecidableEq

/-- The configuration `model_command::run` consumes: the training index's
bit width, the validation/test indices' bit widths when those files are
given, whether a prediction output path is given, and the epoch count. -/
structure run_config where
  train_n_index_bits : ℕ
  val_n_index_bits : Option ℕ
  test_n_index_bits : Option ℕ
  pred_file_given : Bool
  n_epochs : ℕ

/-- Embeds lines 283-291: if both a test file and a prediction file are
given, check the index bits (throwing at line 287 on mismatch), and only
then create the output file and run the prediction pass. -/
def run_test_phase (cfg : run_config) (evs : List run_event) :
    List run_event × Option String :=
  match cfg.test_n_index_bits, cfg.pred_file_given with
  | some tbits, true =>
    if tbits ≠ cfg.train_n_index_bits then
      (evs, some ("Mismatching index bits in train and test"))
    else
      (evs ++ [run_event.pred_file_created, run_event.predict_pass], none)
  | _, _ => (evs, none)

/-- Embeds `model_command::run` (lines 250-294) as the list of observable
events performed before the run returns or throws, together with the fatal
error, if any. `dropout_prob_log` is the local constant 1 of line 256; the
validation index-bit check (lines 271-272) precedes the epoch loop, while
the test index-bit check (lines 286-287) runs only after it. -/
def model_command_run (cfg : run_config) : List run_event × Option String :=
  let dropout_prob_log : ℕ := 1
  match cfg.val_n_index_bits with
  | none =>
    run_test_phase cfg
      (List.replicate cfg.n_epochs (run_event.train_epoch dropout_prob_log))
  | some vbits =>
    if vbits ≠ cfg.train_n_index_bits then
      ([], some ("Mismatching index bits in train and val"))
    else
      run_test_phase cfg
        ((List.replicate cfg.n_epochs
          [run_event.train_epoch dropout_prob_log, run_event.eval_pass]).flatten)

theorem train_dropout_mult_eq (k : ℕ) :
    train_dropout_mult k = 2 ^ k / (2 ^ k - 1) := by
  unfold train_dropout_mult
  have h : (1 <<< k : ℕ) = 2 ^ k := by
    rw [Nat.shiftLeft_eq, one_mul]
  rw [h]
  push_cast
  rfl

theorem eval_range_snd {α : Type} (m : model α) (st : α) (idx : file_index) :
    ∀ (len a : ℕ) (p : ℝ × (ℕ → ℝ)) (ei : ℕ),
    ((List.range' a len).foldl (evaluate_example m st idx) p).2 ei
      = if a ≤ ei ∧ ei < a + len then eval_prediction m st idx ei else p.2 ei := by
  intro len
  induction len with
  | zero =>
    intro a p ei
    simp only [List.range', List.foldl_nil]
    rw [if_neg (by omega)]
  | succ len ih =>
    intro a p ei
    rw [List.range'_succ, List.foldl_cons, ih]
    have hupd : (evaluate_example m st idx p a).2 ei
        = if ei = a then eval_prediction m st idx a else p.2 ei := by
      simp only [evaluate_example, eval_prediction, Function.update_apply]
    rw [hupd]
    by_cases h1 : a + 1 ≤ ei ∧ ei < a + 1 + len
    · rw [if_pos h1, if_pos (by omega)]
    · rw [if_neg h1]
      by_cases h2 : ei = a
      · rw [if_pos h2, if_pos (by omega), h2]
      · rw [if_neg h2, if_neg (by omega)]

theorem eval_batches_snd {α : Type} (m : model α) (st : α) (idx : file_index) :
    ∀ (bl : List (ℕ × ℕ)) (p : ℝ × ℕ × (ℕ → ℝ)) (ei : ℕ),
    ((bl.foldl (evaluate_batch m st idx) p).2.2) ei
      = if ∃ b ∈ bl, b.1 ≤ ei ∧ ei < b.2 then eval_prediction m st idx ei
        else p.2.2 ei := by
  intro bl
  induction bl with
  | nil => intro p ei; simp
  | cons b bl ih =>
    intro p ei
    rw [List.foldl_cons, ih]
    have hb : (evaluate_batch m st idx p b).2.2 ei
        = if b.1 ≤ ei ∧ ei < b.2 then eval_prediction m st idx ei else p.2.2 ei := by
      show ((List.range' b.1 (b.2 - b.1)).foldl (evaluate_example m st idx)
        (p.1, p.2.2)).2 ei = _
      rw [eval_range_snd]
      exact if_congr (by omega) rfl rfl
    rw [hb]
    by_cases h1 : ∃ x ∈ bl, x.1 ≤ ei ∧ ei < x.2
    · rw [if_pos h1,
        if_pos (by obtain ⟨x, hx, hxx⟩ := h1; exact ⟨x, List.mem_cons_of_mem _ hx, hxx⟩)]
    · rw [if_neg h1]
      by_cases h2 : b.1 ≤ ei ∧ ei < b.2
      · rw [if_pos h2, if_pos ⟨b, List.mem_cons_self _ _, h2⟩]
      · rw [if_neg h2, if_neg ?_]
        rintro ⟨x, hxmem, hxx⟩
        rcases List.mem_cons.mp hxmem with h3 | h3
        · exact h2 (h3 ▸ hxx)
        · exact h1 ⟨x, h3, hxx⟩

theorem run_test_phase_mem (cfg : run_config) (evs : List run_event)
    (x : run_event) (hx : x ∈ (run_test_phase cfg evs).1) :
    x ∈ evs ∨ x = run_event.pred_file_created ∨ x = run_event.predict_pass := by
  obtain ⟨tb0, vopt, topt, pg, ne⟩ := cfg
  cases topt with
  | none => exact Or.inl (by simpa [run_test_phase] using hx)
  | some tb =>
    cases pg with
    | false => exact Or.inl (by simpa [run_test_phase] using hx)
    | true =>
      by_cases hne2 : tb ≠ tb0
      · simp only [run_test_phase, if_pos hne2] at hx
        exact Or.inl hx
      · simp only [run_test_phase, if_neg hne2] at hx
        rcases List.mem_append.mp hx with h3 | h3
        · exact Or.inl h3
        · rcases List.mem_cons.mp h3 with h4 | h4
          · exact Or.inr (Or.inl h4)
          · exact Or.inr (Or.inr (by simpa using h4))

/-- The trivial model of the end-to-end loss scenario (spec sect. 8): score 0
for every input, `update` leaves the (unit) weight state unchanged. -/
noncomputable def const_zero_model : model Unit where
  get_dropout_mask_size := fun _ => 1
  predict := fun _ _ _ _ _ => 0
  update := fun st _ _ _ _ _ => st

/-- The scenario dataset: 3 examples with labels (+1, -1, +1). -/
noncomputable def idx3 : file_index where
  n_examples := 3
  labels := fun i => if i = 1 then -1 else 1
  features := fun _ => []
  n_index_bits := 20

/-- A model over ℕ weight state whose `update` visibly mutates the state. -/
noncomputable def probe_model : model ℕ where
  get_dropout_mask_size := fun _ => 1
  predict := fun _ _ _ _ _ => 0
  update := fun st _ _ _ _ _ => st + 1

/-- Same `predict` as `probe_model` but with an inert `update`. -/
noncomputable def probe_model_frozen : model ℕ where
  get_dropout_mask_size := fun _ => 1
  predict := fun _ _ _ _ _ => 0
  update := fun st _ _ _ _ _ => st

/-- An entropy source that always succeeds, drawing the value 2^c at draw
counter c. -/
def rdrand_demo : RdRand := fun c => some (2 ^ c)

/-- An entropy source whose hardware instruction always fails. -/
def rdrand_dead : RdRand := fun _ => none

/-- C1: the claim says `train_on_dataset` aborts before writing whenever the
computed word count `(dropout_mask_size + 63) / 64` exceeds the fixed
capacity of 4000 words. The code has no such check: the mask-fill control
flow at lines 136-138 always proceeds to fill the computed number of words
(first conjunct), so for a mask size of 256064 it fills 4001 words, which
exceeds `dropout_mask_max_size` — an out-of-bounds write into the
4000-word stack buffer rather than an abort. -/
theorem C1_mask_capacity_unchecked :
    (∀ s, train_mask_fill s = mask_fill_action.fill (train_mask_words s)) ∧
    train_mask_fill 256064 = mask_fill_action.fill 4001 ∧
    dropout_mask_max_size < 4001 := by
  exact ⟨fun s => rfl, by decide, by decide⟩

/-- C2 counterexample: a run with train `n_index_bits` = 20, no validation
file, a test file with `n_index_bits` = 18 and a prediction path, over one
epoch. The run does abort fatally, but only after a full training epoch has
run — contradicting the claim that an index-bit mismatch between train and
test aborts before any training work begins. -/
theorem C2_test_mismatch_after_training :
    (model_command_run (run_config.mk 20 none (some 18) true 1)).2
      = some ("Mismatching index bits in train and test") ∧
    run_event.train_epoch 1 ∈ (model_command_run (run_config.mk 20 none (some 18) true 1)).1 := by
  exact ⟨rfl, by decide⟩

/-- C2 (amended): a train/validation index-bit mismatch aborts with no
events at all (no training, no output file); a train/test index-bit
mismatch (when a test file and prediction path are both given) aborts
fatally and never creates the prediction output file nor runs the
prediction pass — though training may already have run. -/
theorem C2_index_bit_mismatch_aborts (cfg : run_config) :
    (∀ vbits, cfg.val_n_index_bits = some vbits → vbits ≠ cfg.train_n_index_bits →
      model_command_run cfg = ([], some ("Mismatching index bits in train and val"))) ∧
    (∀ tbits, cfg.test_n_index_bits = some tbits → cfg.pred_file_given = true →
      tbits ≠ cfg.train_n_index_bits →
      (model_command_run cfg).2.isSome = true ∧
      run_event.pred_file_created ∉ (model_command_run cfg).1 ∧
      run_event.predict_pass ∉ (model_command_run cfg).1) := by
  obtain ⟨tb0, vopt, topt, pg, ne⟩ := cfg
  constructor
  · intro vbits hv hne
    simp only at hv
    subst hv
    simp only [model_command_run]
    rw [if_pos (by simpa using hne)]
  · intro tbits ht hp hne
    simp only at ht hp
    subst ht
    subst hp
    have htp : ∀ evs, run_test_phase (run_config.mk tb0 vopt (some tbits) true ne) evs
        = (evs, some ("Mismatching index bits in train and test")) := by
      intro evs
      simp only [run_test_phase]
      rw [if_pos (by simpa using hne)]
    cases vopt with
    | none =>
      simp only [model_command_run, htp]
      refine ⟨rfl, ?_, ?_⟩
      · intro hmem
        have := List.eq_of_mem_replicate hmem
        exact run_event.noConfusion this
      · intro hmem
        have := List.eq_of_mem_replicate hmem
        exact run_event.noConfusion this
    | some vbits =>
      by_cases hveq : vbits ≠ tb0
      · simp only [model_command_run]
        rw [if_pos (by simpa using hveq)]
        exact ⟨rfl, by simp, by simp⟩
      · simp only [model_command_run]
        rw [if_neg (by simpa using hveq)]
        rw [htp]
        refine ⟨rfl, ?_, ?_⟩
        · intro hmem
          simp only [List.mem_flatten] at hmem
          obtain ⟨l, hl, hxl⟩ := hmem
          have := List.eq_of_mem_replicate hl
          subst this
          simp at hxl
        · intro hmem
          simp only [List.mem_flatten] at hmem
          obtain ⟨l, hl, hxl⟩ := hmem
          have := List.eq_of_mem_replicate hl
          subst this
          simp at hxl

/-- Witness for C2 (amended): both mismatch situations at concrete
configurations. -/
theorem C2_index_bit_mismatch_aborts_witness :
    model_command_run (run_config.mk 20 (some 18) none false 2)
      = ([], some ("Mismatching index bits in train and val")) ∧
    ((model_command_run (run_config.mk 20 none (some 18) true 1)).2.isSome = true ∧
     run_event.pred_file_created ∉ (model_command_run (run_config.mk 20 none (some 18) true 1)).1 ∧
     run_event.predict_pass ∉ (model_command_run (run_config.mk 20 none (some 18) true 1)).1) :=
  ⟨(C2_index_bit_mismatch_aborts (run_config.mk 20 (some 18) none false 2)).1 18 rfl (by decide),
   (C2_index_bit_mismatch_aborts (run_config.mk 20 none (some 18) true 1)).2 18 rfl rfl (by decide)⟩

/-- C3: for every `n_examples`, `generate_batches` yields ranges that cover
[0, n_examples) (first conjunct), are non-empty, within bounds, of size at
most the batch capacity 20000 (second), contiguous (third), non-overlapping
and ascending when unshuffled (fourth), with every non-final range of full
size so only the final one may be shorter (fifth); with `shuffle` set, the
same ranges are returned permuted by the random engine (sixth), assuming
only that `std::shuffle` (modelled by `bs`) permutes its input. -/
theorem C3_generate_batches_partition (n : ℕ)
    (bs : List (ℕ × ℕ) → List (ℕ × ℕ))
    (hbs : ∀ l, (bs l).Perm l) :
    (∀ i, i < n → ∃ r ∈ generate_batches n false bs, r.1 ≤ i ∧ i < r.2) ∧
    (∀ r ∈ generate_batches n false bs,
      r.1 < r.2 ∧ r.2 ≤ n ∧ r.2 - r.1 ≤ batch_size) ∧
    List.Chain' (fun a b : ℕ × ℕ => a.2 = b.1) (generate_batches n false bs) ∧
    List.Pairwise (fun a b : ℕ × ℕ => a.2 ≤ b.1) (generate_batches n false bs) ∧
    (∀ r ∈ (generate_batches n false bs).dropLast, r.2 - r.1 = batch_size) ∧
    (generate_batches n true bs).Perm (generate_batches n false bs) := by
  have hcap : 0 < batch_size := by decide
  have hfalse : generate_batches n false bs = chunkRanges batch_size 0 n := rfl
  have htrue : generate_batches n true bs = bs (chunkRanges batch_size 0 n) := rfl
  rw [hfalse, htrue]
  refine ⟨?_, ?_, ?_, ?_, ?_, ?_⟩
  · intro i hi
    exact chunkRanges_cover batch_size 0 n hcap i (Nat.zero_le i) hi
  · intro r hr
    have h := chunkRanges_mem batch_size 0 n hcap r hr
    exact ⟨h.2.1, h.2.2.1, h.2.2.2⟩
  · exact chunkRanges_chain batch_size 0 n
  · exact chunkRanges_pairwise batch_size 0 n hcap
  · exact chunkRanges_dropLast batch_size 0 n
  · exact hbs (chunkRanges batch_size 0 n)

/-- Witness for C3 at n = 50000 (three batches) with the identity shuffle. -/
theorem C3_generate_batches_partition_witness :
    (∀ i, i < 50000 → ∃ r ∈ generate_batches 50000 false (fun l => l), r.1 ≤ i ∧ i < r.2) ∧
    (∀ r ∈ generate_batches 50000 false (fun l => l),
      r.1 < r.2 ∧ r.2 ≤ 50000 ∧ r.2 - r.1 ≤ batch_size) ∧
    List.Chain' (fun a b : ℕ × ℕ => a.2 = b.1) (generate_batches 50000 false (fun l => l)) ∧
    List.Pairwise (fun a b : ℕ × ℕ => a.2 ≤ b.1) (generate_batches 50000 false (fun l => l)) ∧
    (∀ r ∈ (generate_batches 50000 false (fun l => l)).dropLast, r.2 - r.1 = batch_size) ∧
    (generate_batches 50000 true (fun l => l)).Perm (generate_batches 50000 false (fun l => l)) :=
  C3_generate_batches_partition 50000 (fun l => l) (fun l => List.Perm.refl l)

/-- C4: `generate_mini_batches` partitions [b, e) into covering (first
conjunct), in-bounds, non-empty ranges of size at most the mini-batch
capacity 24 (second), contiguous (third), non-overlapping and always in
ascending original order (fourth), with only the final range possibly
shorter (fifth). -/
theorem C4_generate_mini_batches_partition (b e : ℕ) (_hbe : b ≤ e) :
    (∀ i, b ≤ i → i < e → ∃ r ∈ generate_mini_batches b e, r.1 ≤ i ∧ i < r.2) ∧
    (∀ r ∈ generate_mini_batches b e,
      b ≤ r.1 ∧ r.1 < r.2 ∧ r.2 ≤ e ∧ r.2 - r.1 ≤ mini_batch_size) ∧
    List.Chain' (fun x y : ℕ × ℕ => x.2 = y.1) (generate_mini_batches b e) ∧
    List.Pairwise (fun x y : ℕ × ℕ => x.2 ≤ y.1) (generate_mini_batches b e) ∧
    (∀ r ∈ (generate_mini_batches b e).dropLast, r.2 - r.1 = mini_batch_size) := by
  have hcap : 0 < mini_batch_size := by decide
  exact ⟨chunkRanges_cover mini_batch_size b e hcap,
    chunkRanges_mem mini_batch_size b e hcap,
    chunkRanges_chain mini_batch_size b e,
    chunkRanges_pairwise mini_batch_size b e hcap,
    chunkRanges_dropLast mini_batch_size b e⟩

/-- Witness for C4 on the interval [5, 60) (mini-batches (5,29), (29,53),
(53,60)). -/
theorem C4_generate_mini_batches_partition_witness :
    (∀ i, 5 ≤ i → i < 60 → ∃ r ∈ generate_mini_batches 5 60, r.1 ≤ i ∧ i < r.2) ∧
    (∀ r ∈ generate_mini_batches 5 60,
      5 ≤ r.1 ∧ r.1 < r.2 ∧ r.2 ≤ 60 ∧ r.2 - r.1 ≤ mini_batch_size) ∧
    List.Chain' (fun x y : ℕ × ℕ => x.2 = y.1) (generate_mini_batches 5 60) ∧
    List.Pairwise (fun x y : ℕ × ℕ => x.2 ≤ y.1) (generate_mini_batches 5 60) ∧
    (∀ r ∈ (generate_mini_batches 5 60).dropLast, r.2 - r.1 = mini_batch_size) :=
  C4_generate_mini_batches_partition 5 60 (by decide)

/-- C5: in training mode each example contributes `log(1 + exp(-y*t))` with
`t` the score `predict` returned for it (first conjunct, for every model,
state and example); and for the spec's end-to-end scenario — 3 examples
with labels (+1, -1, +1) under the constant-zero-score model — the total
loss is `3 * log 2` over 3 examples (second conjunct), so the reported mean
loss `loss / cnt` is exactly `log 2` (third conjunct). -/
theorem C5_training_loss (bs : List (ℕ × ℕ) → List (ℕ × ℕ))
    (ms : ℕ × ℕ → List (ℕ × ℕ) → List (ℕ × ℕ))
    (maskFor : ℕ → List ℕ)
    (hbs : ∀ l, (bs l).Perm l) (hms : ∀ b l, (ms b l).Perm l) :
    (∀ (α : Type) (m : model α) (dmult : ℝ) (mf : ℕ → List ℕ)
       (idx : file_index) (st : α) (ei : ℕ),
      (train_example_step m dmult mf idx st ei).2
        = Real.log (1 + Real.exp (-(idx.labels ei * m.predict st (idx.features ei)
            (compute_norm (idx.features ei)) (mf ei) dmult)))) ∧
    train_on_dataset const_zero_model idx3 1 bs ms maskFor ()
      = ((), 3 * Real.log 2, 3) ∧
    train_reported_mean_loss (train_on_dataset const_zero_model idx3 1 bs ms maskFor ())
      = Real.log 2 := by
  have hb3 : generate_batches idx3.n_examples true bs = [(0, 3)] := by
    have h1 : generate_batches idx3.n_examples true bs
        = bs (chunkRanges batch_size 0 3) := rfl
    have h2 : chunkRanges batch_size 0 3 = [(0, 3)] := by decide
    rw [h1, h2]
    exact List.perm_singleton.mp (hbs [(0, 3)])
  have hmb3 : ms (0, 3) (generate_mini_batches 0 3) = [(0, 3)] := by
    have h2 : generate_mini_batches 0 3 = [(0, 3)] := by decide
    rw [h2]
    exact List.perm_singleton.mp (hms (0, 3) [(0, 3)])
  have hstep : ∀ (st : Unit) (ei : ℕ),
      train_example_step const_zero_model (train_dropout_mult 1) maskFor idx3 st ei
        = ((), Real.log 2) := by
    intro st ei
    unfold train_example_step
    simp [const_zero_model, mul_zero, neg_zero, Real.exp_zero]
    norm_num
  have hmain : train_on_dataset const_zero_model idx3 1 bs ms maskFor ()
      = ((), 3 * Real.log 2, 3) := by
    unfold train_on_dataset
    rw [hb3]
    simp only [List.foldl_cons, List.foldl_nil]
    unfold train_batch
    dsimp only
    rw [hmb3]
    simp only [List.foldl_cons, List.foldl_nil]
    unfold train_range
    dsimp only
    have hr3 : List.range' 0 (3 - 0) = [0, 1, 2] := rfl
    rw [hr3]
    simp only [List.foldl_cons, List.foldl_nil, hstep]
    refine Prod.ext rfl (Prod.ext ?_ ?_)
    · show 0 + Real.log 2 + Real.log 2 + Real.log 2 = 3 * Real.log 2
      ring
    · show 0 + (3 - 0) = 3
      norm_num
  refine ⟨fun α m dmult mf idx st ei => rfl, hmain, ?_⟩
  rw [hmain]
  unfold train_reported_mean_loss
  norm_num

/-- Witness for C5: the identity shuffles and the empty-mask oracle. -/
theorem C5_training_loss_witness :
    (∀ (α : Type) (m : model α) (dmult : ℝ) (mf : ℕ → List ℕ)
       (idx : file_index) (st : α) (ei : ℕ),
      (train_example_step m dmult mf idx st ei).2
        = Real.log (1 + Real.exp (-(idx.labels ei * m.predict st (idx.features ei)
            (compute_norm (idx.features ei)) (mf ei) dmult)))) ∧
    train_on_dataset const_zero_model idx3 1 (fun l => l) (fun _ l => l) (fun _ => []) ()
      = ((), 3 * Real.log 2, 3) ∧
    train_reported_mean_loss
        (train_on_dataset const_zero_model idx3 1 (fun l => l) (fun _ l => l) (fun _ => []) ())
      = Real.log 2 :=
  C5_training_loss (fun l => l) (fun _ l => l) (fun _ => [])
    (fun l => List.Perm.refl l) (fun _ l => List.Perm.refl l)

/-- C6: the dropout multiplier computed at line 99 and passed to both
`predict` and `update` equals `2^k / (2^k - 1)` (first conjunct), and the
gradient scale passed to `update` at line 145 is
`-y * exp(-y*t) / (1 + exp(-y*t))` with `t` the score `predict` returned
for that example under that multiplier (second conjunct). -/
theorem C6_dropout_mult_and_gradient (k : ℕ) (α : Type) (m : model α)
    (maskFor : ℕ → List ℕ) (idx : file_index) (st : α) (ei : ℕ) :
    train_dropout_mult k = 2 ^ k / (2 ^ k - 1) ∧
    (train_example_step m (train_dropout_mult k) maskFor idx st ei).1
      = m.update st (idx.features ei) (compute_norm (idx.features ei))
          (-idx.labels ei *
            Real.exp (-(idx.labels ei * m.predict st (idx.features ei)
              (compute_norm (idx.features ei)) (maskFor ei) (train_dropout_mult k))) /
            (1 + Real.exp (-(idx.labels ei * m.predict st (idx.features ei)
              (compute_norm (idx.features ei)) (maskFor ei) (train_dropout_mult k)))))
          (maskFor ei) (train_dropout_mult k) :=
  ⟨train_dropout_mult_eq k, rfl⟩

/-- C7: evaluation never mutates the model — its result depends only on
`predict`, not `update` (first conjunct); `fill_mask_ones` sets every bit
of every word it writes (second conjunct); and each in-range output slot,
indexed by the example's original ordinal, holds `1 / (1 + exp(-t))` for
the score `t` predicted under the shared full-capacity all-ones mask with
dropout multiplier 1 (third conjunct). Batches are generated without
shuffling and no mini-batches are formed, per `evaluate_on_dataset`. -/
theorem C7_evaluate_frame (α : Type) (m m2 : model α) (idx : file_index)
    (st : α) (hp : m.predict = m2.predict) :
    evaluate_on_dataset m idx st = evaluate_on_dataset m2 idx st ∧
    (∀ size : ℕ, ∀ w ∈ fill_mask_ones size, ∀ i, i < 64 → Nat.testBit w i = true) ∧
    (∀ ei, ei < idx.n_examples →
      (evaluate_on_dataset m idx st).2.2 ei = eval_prediction m st idx ei) := by
  refine ⟨?_, ?_, ?_⟩
  · have hex : evaluate_example m st idx = evaluate_example m2 st idx := by
      funext p ei
      simp only [evaluate_example, hp]
    have hbatch : evaluate_batch m st idx = evaluate_batch m2 st idx := by
      funext p b
      simp only [evaluate_batch, hex]
    simp only [evaluate_on_dataset, hbatch]
  · intro size w hw i hi
    have hweq := List.eq_of_mem_replicate hw
    subst hweq
    rw [Nat.testBit_two_pow_sub_one]
    simpa using hi
  · intro ei hei
    have hgb : generate_batches idx.n_examples false (fun l => l)
        = chunkRanges batch_size 0 idx.n_examples := rfl
    show ((generate_batches idx.n_examples false (fun l => l)).foldl
      (evaluate_batch m st idx) (0, 0, fun _ => 0)).2.2 ei = _
    rw [hgb, eval_batches_snd]
    rw [if_pos (chunkRanges_cover batch_size 0 idx.n_examples (by decide) ei
      (Nat.zero_le ei) hei)]

/-- Witness for C7: two models sharing `predict` but with visibly different
`update`, on the 3-example dataset. -/
theorem C7_evaluate_frame_witness :
    evaluate_on_dataset probe_model idx3 0 = evaluate_on_dataset probe_model_frozen idx3 0 ∧
    (∀ size : ℕ, ∀ w ∈ fill_mask_ones size, ∀ i, i < 64 → Nat.testBit w i = true) ∧
    (∀ ei, ei < idx3.n_examples →
      (evaluate_on_dataset probe_model idx3 0).2.2 ei = eval_prediction probe_model 0 idx3 ei) :=
  C7_evaluate_frame ℕ probe_model probe_model_frozen idx3 0 rfl

/-- C8: when every needed hardware draw succeeds, `fill_mask_rand` clears
the first `size` words and fills word `p` with the OR of exactly
`zero_prob_log` draws (those with counters `p*k .. p*k+k-1`), starting from
the cleared value 0 and leaving the rest of the buffer unchanged (first
conjunct); if any draw in range fails — the first failing draw being `j` —
the operation returns the fatal error of line 77 instead, with no retry and
no fallback (second conjunct). -/
theorem C8_fill_mask_rand (mask : List ℕ) (size k : ℕ) (rdrand : RdRand) :
    ((∀ c, c < size * k → (rdrand c).isSome = true) →
      fill_mask_rand mask size k rdrand
        = Except.ok (((List.range size).map
            (fun p => word_val_go rdrand 0 k (p * k))) ++ mask.drop size)) ∧
    (∀ j, j < size * k → (∀ c, c < j → (rdrand c).isSome = true) →
      rdrand j = none →
      fill_mask_rand mask size k rdrand
        = Except.error ("Error generating random number!")) := by
  constructor
  · intro h
    have hwords := fill_words_rand_ok rdrand k size 0
      (fun j hj => by simpa using h j hj)
    unfold fill_mask_rand
    rw [hwords]
    have hmap : (List.range size).map (fun q => word_val_go rdrand 0 k (0 + q * k))
        = (List.range size).map (fun p => word_val_go rdrand 0 k (p * k)) := by
      apply List.map_congr_left
      intro q _
      congr 1
      omega
    rw [hmap]
  · intro j hj hpre hnone
    have hwords := fill_words_rand_err rdrand k size 0 j (by simpa using hj)
      (fun i hi => by simpa using hpre i hi)
      (by simpa using hnone)
    unfold fill_mask_rand
    rw [hwords]

/-- Witness for C8: a 2-word mask from 2 draws per word on an always-alive
source, and a failing source on the first draw. -/
theorem C8_fill_mask_rand_witness :
    fill_mask_rand [9, 9, 9] 2 2 rdrand_demo
      = Except.ok (((List.range 2).map
          (fun p => word_val_go rdrand_demo 0 2 (p * 2))) ++ [9, 9, 9].drop 2) ∧
    fill_mask_rand [9] 1 1 rdrand_dead
      = Except.error ("Error generating random number!") :=
  ⟨(C8_fill_mask_rand [9, 9, 9] 2 2 rdrand_demo).1 (by decide),
   (C8_fill_mask_rand [9] 1 1 rdrand_dead).2 0 (by decide)
     (fun c hc => absurd hc (Nat.not_lt_zero c)) rfl⟩

theorem workers_cnt_flatten : ∀ (ws : List (List (ℕ × ℕ))),
    (ws.map worker_cnt).sum = (ws.flatten.map (fun b => b.2 - b.1)).sum := by
  intro ws
  induction ws with
  | nil => rfl
  | cons w ws ih =>
    simp only [List.map_cons, List.sum_cons, List.flatten_cons, List.map_append,
      List.sum_append, ih, worker_cnt]

/-- C9 counterexample: a dataset with n_examples = 2^32, all its batches
claimed by a single worker. `evaluate_on_dataset` accumulates `cnt` in a
`uint32_t` (line 172), so the reported count is 2^32 mod 2^32 = 0, not the
claimed exact n_examples (which is positive). -/
theorem C9_eval_cnt_overflow :
    eval_reported_cnt [chunkRanges batch_size 0 (2 ^ 32)] = 0 ∧
    0 < (2 ^ 32 : ℕ) := by
  have hw : worker_cnt (chunkRanges batch_size 0 (2 ^ 32)) = 2 ^ 32 := by
    unfold worker_cnt
    rw [chunkRanges_sum batch_size 0 (2 ^ 32) (by decide), Nat.sub_zero]
  have hgen : ∀ L : List (ℕ × ℕ), worker_cnt L = 2 ^ 32 →
      eval_reported_cnt [L] = 0 := by
    intro L hL
    unfold eval_reported_cnt
    rw [List.map_cons, List.map_nil, List.sum_cons, List.sum_nil, hL,
      Nat.add_zero, Nat.mod_self]
  exact ⟨hgen _ hw, by norm_num⟩

/-- C9 (amended): for every dataset and every partition of its batches
among workers, no example is double-counted or dropped: the summed
per-worker counts total exactly n_examples. `train_on_dataset`'s 64-bit
counter therefore reports n_examples exactly (n_examples is itself a
`uint64_t`, so n < 2^64); `evaluate_on_dataset`'s 32-bit counter reports
n_examples mod 2^32, which equals n_examples only when n_examples < 2^32. -/
theorem C9_reduction_cnt (n : ℕ) (workers : List (List (ℕ × ℕ)))
    (hpart : workers.flatten.Perm (chunkRanges batch_size 0 n)) :
    (n < 2 ^ 64 → train_reported_cnt workers = n) ∧
    eval_reported_cnt workers = n % 2 ^ 32 ∧
    (n < 2 ^ 32 → eval_reported_cnt workers = n) := by
  have hsum : (workers.map worker_cnt).sum = n := by
    rw [workers_cnt_flatten]
    rw [(hpart.map (fun b : ℕ × ℕ => b.2 - b.1)).sum_eq]
    rw [chunkRanges_sum batch_size 0 n (by decide), Nat.sub_zero]
  refine ⟨?_, ?_, ?_⟩
  · intro hn
    unfold train_reported_cnt
    rw [hsum]
    exact Nat.mod_eq_of_lt hn
  · unfold eval_reported_cnt
    rw [hsum]
  · intro hn
    unfold eval_reported_cnt
    rw [hsum]
    exact Nat.mod_eq_of_lt hn

/-- Witness for C9 (amended): n = 3 with a single worker holding the one
batch. -/
theorem C9_reduction_cnt_witness :
    train_reported_cnt [[(0, 3)]] = 3 ∧
    eval_reported_cnt [[(0, 3)]] = 3 % 2 ^ 32 ∧
    eval_reported_cnt [[(0, 3)]] = 3 :=
  ⟨(C9_reduction_cnt 3 [[(0, 3)]] (by decide)).1 (by norm_num),
   (C9_reduction_cnt 3 [[(0, 3)]] (by decide)).2.1,
   (C9_reduction_cnt 3 [[(0, 3)]] (by decide)).2.2 (by norm_num)⟩

/-- C10: in every run, every call to `train_on_dataset` the orchestrator
makes is passed `dropout_prob_log` = 1 (the local constant of line 256;
`run_config` has no dropout field, so the schedule is not
runtime-configurable), and the resulting dropout multiplier is exactly 2
(per-bit zero probability 2^-1 with one OR-ed draw per word). -/
theorem C10_fixed_dropout_schedule (cfg : run_config) :
    (∀ j, run_event.train_epoch j ∈ (model_command_run cfg).1 → j = 1) ∧
    train_dropout_mult 1 = 2 := by
  constructor
  · intro j hj
    obtain ⟨tb0, vopt, topt, pg, ne⟩ := cfg
    cases vopt with
    | none =>
      have hj2 : run_event.train_epoch j ∈
          (run_test_phase (run_config.mk tb0 none topt pg ne)
            (List.replicate ne (run_event.train_epoch 1))).1 := by
        simpa [model_command_run] using hj
      rcases run_test_phase_mem _ _ _ hj2 with h1 | h1 | h1
      · have := List.eq_of_mem_replicate h1
        injection this
      · exact run_event.noConfusion h1
      · exact run_event.noConfusion h1
    | some vbits =>
      by_cases hv : vbits ≠ tb0
      · have hrun : model_command_run (run_config.mk tb0 (some vbits) topt pg ne)
            = ([], some ("Mismatching index bits in train and val")) := by
          simp only [model_command_run]
          rw [if_pos (by simpa using hv)]
        rw [hrun] at hj
        simp at hj
      · have hrun : model_command_run (run_config.mk tb0 (some vbits) topt pg ne)
            = run_test_phase (run_config.mk tb0 (some vbits) topt pg ne)
              ((List.replicate ne
                [run_event.train_epoch 1, run_event.eval_pass]).flatten) := by
          simp only [model_command_run]
          rw [if_neg (by simpa using hv)]
        rw [hrun] at hj
        rcases run_test_phase_mem _ _ _ hj with h1 | h1 | h1
        · simp only [List.mem_flatten] at h1
          obtain ⟨l, hl, hxl⟩ := h1
          have := List.eq_of_mem_replicate hl
          subst this
          rcases List.mem_cons.mp hxl with h2 | h2
          · injection h2
          · simp at h2
        · exact run_event.noConfusion h1
        · exact run_event.noConfusion h1
  · rw [train_dropout_mult_eq]
    norm_num

/-- Witness for C10: a 2-epoch run whose event list contains a training
epoch with `dropout_prob_log` = 1. -/
theorem C10_fixed_dropout_schedule_witness :
    run_event.train_epoch 1 ∈ (model_command_run (run_config.mk 20 none none false 2)).1 ∧
    (1 : ℕ) = 1 ∧
    train_dropout_mult 1 = 2 :=
  ⟨by decide,
   (C10_fixed_dropout_schedule (run_config.mk 20 none none false 2)).1 1 (by decide),
   (C10_fixed_dropout_schedule (run_config.mk 20 none none false 2)).2⟩
